import Mathlib

/-!
A shallow embedding of the tredgate-loan record service (`loanService`) and
the data model it operates on, together with proofs of its behavioural
contracts.  Numeric fields are modelled as exact rationals, the browser's
local storage as the optional value stored under the single fixed key, and
the fallible service operations as functions returning `Except` paired with
the resulting storage state.
-/

namespace TredgateLoan

/-- The three states of a loan application's `status` field. -/
inductive LoanStatus where
  | pending
  | approved
  | rejected
deriving DecidableEq

/-- The sole persisted entity, `LoanApplication` from `src/types/loan`. -/
structure LoanApplication where
  id : String
  applicantName : String
  amount : ℚ
  termMonths : ℚ
  interestRate : ℚ
  status : LoanStatus
  createdAt : String
deriving DecidableEq

/-- The input accepted by `createLoanApplication`. -/
structure LoanInput where
  applicantName : String
  amount : ℚ
  termMonths : ℚ
  interestRate : ℚ
deriving DecidableEq

/-- The two error kinds the record service raises. -/
inductive LoanError where
  | validation (msg : String)
  | notFound (msg : String)
deriving DecidableEq

/-- The value persisted under the fixed storage key `tredgate_loans`:
`none` when the key is absent, `some loans` when it is present. -/
abbrev Store := Option (List LoanApplication)

/-- The fixed storage key. -/
def STORAGE_KEY : String := "tredgate_loans"

/-- The store of a fresh browser profile: the key is absent. -/
def emptyStore : Store := none

/-- Whitespace test used by trimming, modelling the JavaScript notion of
whitespace for `String.prototype.trim`. -/
def wsp (c : Char) : Bool := c.isWhitespace

/-- Trimming surrounding whitespace from a character list: drop leading
whitespace, then drop trailing whitespace (via reversal). -/
def trimChars (l : List Char) : List Char :=
  (((l.dropWhile wsp).reverse).dropWhile wsp).reverse

/-- Modelled from the spec: the service trims "surrounding whitespace" from
`applicantName` (JavaScript `String.prototype.trim`), modelled on the
string's character list. -/
def strTrim (s : String) : String :=
  String.mk (trimChars s.data)

/-- Modelled from the spec: `getLoans` reads the value at the fixed storage
key; if the key is absent it returns an empty sequence. -/
def getLoans (store : Store) : List LoanApplication :=
  store.getD []

/-- Modelled from the spec: `saveLoans` serializes the given ordered sequence
of records and writes it to the fixed storage key, fully replacing any prior
value; no validation is applied. -/
def saveLoans (loans : List LoanApplication) (_store : Store) : Store :=
  some loans

/-- Modelled from the spec: `createLoanApplication` assigns "a freshly
generated unique id"; the generator itself is not among the repository
sources, so it is modelled as a deterministic string strictly longer than
every id already in the collection, hence non-empty and distinct from all
of them. -/
def freshId : List LoanApplication → String
  | [] => "x"
  | l :: ls => l.id ++ freshId ls

/-- Modelled from the spec: the four ordered validation checks of
`createLoanApplication`, first failing check wins; returns the error
message, or `none` when the input is valid. -/
def validateInput (input : LoanInput) : Option String :=
  if strTrim input.applicantName = "" then some "Applicant name is required"
  else if input.amount ≤ 0 then some "Amount must be greater than 0"
  else if input.termMonths ≤ 0 then some "Term months must be greater than 0"
  else if input.interestRate < 0 then some "Interest rate cannot be negative"
  else none

/-- Modelled from the spec: `createLoanApplication` validates its input
(raising `ValidationError` on the first failing check, leaving storage
untouched), and on success builds a new record with a fresh id, trimmed
name, the given numeric fields, `status = pending` and the current
timestamp, appends it to the loaded collection and persists the result.
The timestamp source is passed in as `now`. -/
def createLoanApplication (input : LoanInput) (now : String) (store : Store) :
    Except LoanError LoanApplication × Store :=
  match validateInput input with
  | some msg => (Except.error (LoanError.validation msg), store)
  | none =>
      let loans := getLoans store
      let newLoan : LoanApplication :=
        { id := freshId loans
          applicantName := strTrim input.applicantName
          amount := input.amount
          termMonths := input.termMonths
          interestRate := input.interestRate
          status := LoanStatus.pending
          createdAt := now }
      (Except.ok newLoan, saveLoans (loans ++ [newLoan]) store)

/-- Rewrites the first record satisfying `p` with `f`, leaving every other
record untouched; models locating a record by id and mutating it in place. -/
def updateFirst (p : LoanApplication → Bool) (f : LoanApplication → LoanApplication) :
    List LoanApplication → List LoanApplication
  | [] => []
  | l :: ls => if p l then f l :: ls else l :: updateFirst p f ls

/-- Modelled from the spec: the `NotFoundError` message naming the missing id. -/
def notFoundMsg (id : String) : String :=
  "Loan with id " ++ id ++ " not found"

/-- Modelled from the spec: `updateLoanStatus` loads the collection, locates
the record with matching id (`NotFoundError` when there is none, leaving
storage untouched), sets `status = newStatus` on that record only and
persists the full collection. -/
def updateLoanStatus (id : String) (newStatus : LoanStatus) (store : Store) :
    Except LoanError Unit × Store :=
  if (getLoans store).any (fun l => l.id == id) then
    (Except.ok (),
      saveLoans (updateFirst (fun l => l.id == id)
        (fun l => { l with status := newStatus }) (getLoans store)) store)
  else
    (Except.error (LoanError.notFound (notFoundMsg id)), store)

/-- Modelled from the spec: the fixed two-rule auto-decision policy,
`amount <= 100000 AND termMonths <= 60` approves, anything else rejects. -/
def autoDecision (l : LoanApplication) : LoanStatus :=
  if l.amount ≤ 100000 ∧ l.termMonths ≤ 60 then LoanStatus.approved
  else LoanStatus.rejected

/-- Modelled from the spec: `autoDecideLoan` loads the collection, locates
the record by id (`NotFoundError` when there is none, leaving storage
untouched), applies the decision rule to that record's status and persists
the mutated collection. -/
def autoDecideLoan (id : String) (store : Store) :
    Except LoanError Unit × Store :=
  if (getLoans store).any (fun l => l.id == id) then
    (Except.ok (),
      saveLoans (updateFirst (fun l => l.id == id)
        (fun l => { l with status := autoDecision l }) (getLoans store)) store)
  else
    (Except.error (LoanError.notFound (notFoundMsg id)), store)

/-- Embedded from the repository source (the `calculateMonthlyPayment`
implementation in `src/unnamed/part_001`): `total = amount * (1 +
interestRate)`, the result is `total / termMonths`, no rounding. -/
def calculateMonthlyPayment (loan : LoanApplication) : ℚ :=
  let total := loan.amount * (1 + loan.interestRate)
  total / loan.termMonths

/-- One invocation of a core mutating operation of the record service. -/
inductive Op where
  | create (input : LoanInput) (now : String)
  | update (id : String) (newStatus : LoanStatus)
  | autoDecide (id : String)

/-- The storage state after running one operation (results are discarded;
failed operations leave the storage unchanged). -/
def applyOp (op : Op) (store : Store) : Store :=
  match op with
  | Op.create input now => (createLoanApplication input now store).2
  | Op.update id s => (updateLoanStatus id s store).2
  | Op.autoDecide id => (autoDecideLoan id store).2

/-- The storage state after running a sequence of operations in order. -/
def applyOps : List Op → Store → Store
  | [], store => store
  | op :: ops, store => applyOps ops (applyOp op store)

/-- An `update` operation whose new status is a decision, never `pending`
(the spec restricts `updateStatus` to approved or rejected); `create` and
`autoDecide` operations qualify unconditionally. -/
def Op.decisionOnly : Op → Bool
  | Op.update _ LoanStatus.pending => false
  | _ => true

/-- The validation constraints a persisted record must satisfy, from the
data-model invariant: non-empty trimmed `applicantName`, positive `amount`,
positive `termMonths`, non-negative `interestRate`, and a legal `status`. -/
def validRecord (l : LoanApplication) : Prop :=
  strTrim l.applicantName ≠ "" ∧ 0 < l.amount ∧ 0 < l.termMonths ∧
    0 ≤ l.interestRate ∧
    (l.status = LoanStatus.pending ∨ l.status = LoanStatus.approved ∨
      l.status = LoanStatus.rejected)

/-- The collection invariant: every record satisfies the validation
constraints and no two records share an id. -/
def Inv (loans : List LoanApplication) : Prop :=
  (∀ l ∈ loans, validRecord l) ∧ (loans.map (fun l => l.id)).Nodup


lemma dropWhile_head?_false {α : Type} (p : α → Bool) (l : List α) {a : α}
    (h : (l.dropWhile p).head? = some a) : p a = false := by
  have hm := List.head?_dropWhile_not p l
  rw [h] at hm
  exact hm

lemma dropWhile_eq_self_of_head? {α : Type} (p : α → Bool) {l : List α}
    (h : ∀ a, l.head? = some a → p a = false) : l.dropWhile p = l := by
  cases l with
  | nil => rfl
  | cons a t => exact List.dropWhile_cons_of_neg (by simp [h a rfl])

lemma dropWhile_idem {α : Type} (p : α → Bool) (l : List α) :
    (l.dropWhile p).dropWhile p = l.dropWhile p :=
  dropWhile_eq_self_of_head? p (fun _a h => dropWhile_head?_false p l h)

lemma getLast?_dropWhile {α : Type} (p : α → Bool) (l : List α)
    (h : l.dropWhile p ≠ []) : (l.dropWhile p).getLast? = l.getLast? := by
  obtain ⟨t, ht⟩ := @List.dropWhile_suffix _ l p
  conv_rhs => rw [← ht]
  rw [List.getLast?_append_of_ne_nil t h]

lemma trimChars_idem (l : List Char) : trimChars (trimChars l) = trimChars l := by
  unfold trimChars
  set u := l.dropWhile wsp with hu
  set v := u.reverse.dropWhile wsp with hv
  have h1 : v.reverse.dropWhile wsp = v.reverse := by
    apply dropWhile_eq_self_of_head?
    intro a ha
    rw [List.head?_reverse] at ha
    have hvne : v ≠ [] := by
      intro hnil
      rw [hnil] at ha
      simp at ha
    rw [hv, getLast?_dropWhile wsp u.reverse (by rwa [← hv]),
      List.getLast?_reverse] at ha
    exact dropWhile_head?_false wsp l (by rwa [← hu])
  rw [h1, List.reverse_reverse, hv, dropWhile_idem]

lemma strTrim_idem (s : String) : strTrim (strTrim s) = strTrim s := by
  unfold strTrim
  rw [show (String.mk (trimChars s.data)).data = trimChars s.data from rfl,
    trimChars_idem]

lemma freshId_length_pos (ls : List LoanApplication) : 0 < (freshId ls).length := by
  induction ls with
  | nil => decide
  | cons _a t ih =>
      rw [freshId, String.length_append]
      omega

lemma id_length_lt_freshId {l : LoanApplication} {ls : List LoanApplication}
    (h : l ∈ ls) : l.id.length < (freshId ls).length := by
  induction ls with
  | nil => cases h
  | cons a t ih =>
      rw [freshId, String.length_append]
      rcases List.mem_cons.mp h with h1 | h2
      · have := freshId_length_pos t
        rw [h1]
        omega
      · have := ih h2
        omega

lemma freshId_not_mem {l : LoanApplication} {ls : List LoanApplication}
    (h : l ∈ ls) : l.id ≠ freshId ls := by
  intro he
  have := id_length_lt_freshId h
  rw [he] at this
  omega

lemma freshId_ne_empty (ls : List LoanApplication) : freshId ls ≠ "" := by
  intro h
  have h1 := freshId_length_pos ls
  rw [h] at h1
  have h0 : ("" : String).length = 0 := rfl
  omega


lemma validateInput_eq_none_iff (input : LoanInput) :
    validateInput input = none ↔
      strTrim input.applicantName ≠ "" ∧ 0 < input.amount ∧
        0 < input.termMonths ∧ 0 ≤ input.interestRate := by
  unfold validateInput
  split_ifs with h1 h2 h3 h4 <;> simp_all [not_le, not_lt]

lemma updateFirst_eq_set (p : LoanApplication → Bool) (f : LoanApplication → LoanApplication)
    (ls : List LoanApplication) (l0 : LoanApplication) (h : ls.find? p = some l0) :
    ∃ i, ls[i]? = some l0 ∧ updateFirst p f ls = ls.set i (f l0) := by
  induction ls with
  | nil => simp at h
  | cons l ls ih =>
      by_cases hp : p l = true
      · rw [List.find?_cons_of_pos _ hp] at h
        have hl : l = l0 := by simpa using h
        subst hl
        exact ⟨0, by simp, by simp [updateFirst, hp]⟩
      · rw [List.find?_cons_of_neg _ (by simpa using hp)] at h
        obtain ⟨i, h1, h2⟩ := ih h
        exact ⟨i + 1, by simpa using h1, by simp [updateFirst, hp, h2]⟩

lemma mem_updateFirst {p : LoanApplication → Bool} {f : LoanApplication → LoanApplication}
    {ls : List LoanApplication} {l' : LoanApplication}
    (h : l' ∈ updateFirst p f ls) : l' ∈ ls ∨ ∃ l ∈ ls, l' = f l := by
  induction ls with
  | nil => simp [updateFirst] at h
  | cons l ls ih =>
      simp only [updateFirst] at h
      by_cases hp : p l = true
      · rw [if_pos hp] at h
        rcases List.mem_cons.mp h with h1 | h2
        · exact Or.inr ⟨l, List.mem_cons_self l ls, h1⟩
        · exact Or.inl (List.mem_cons_of_mem _ h2)
      · rw [if_neg hp] at h
        rcases List.mem_cons.mp h with h1 | h2
        · exact Or.inl (h1 ▸ List.mem_cons_self l ls)
        · rcases ih h2 with h3 | ⟨a, ha, he⟩
          · exact Or.inl (List.mem_cons_of_mem _ h3)
          · exact Or.inr ⟨a, List.mem_cons_of_mem _ ha, he⟩

lemma map_id_updateFirst (p : LoanApplication → Bool) (f : LoanApplication → LoanApplication)
    (hf : ∀ l, (f l).id = l.id) (ls : List LoanApplication) :
    (updateFirst p f ls).map (fun l => l.id) = ls.map (fun l => l.id) := by
  induction ls with
  | nil => rfl
  | cons l ls ih =>
      simp only [updateFirst]
      by_cases hp : p l = true
      · rw [if_pos hp]
        simp [hf]
      · rw [if_neg hp]
        simp [ih]

lemma getElem?_updateFirst (p : LoanApplication → Bool) (f : LoanApplication → LoanApplication)
    (ls : List LoanApplication) (i : ℕ) :
    (updateFirst p f ls)[i]? = ls[i]? ∨
      ∃ l, ls[i]? = some l ∧ (updateFirst p f ls)[i]? = some (f l) := by
  induction ls generalizing i with
  | nil => left; rfl
  | cons l ls ih =>
      simp only [updateFirst]
      by_cases hp : p l = true
      · rw [if_pos hp]
        cases i with
        | zero => right; exact ⟨l, by simp, by simp⟩
        | succ j => left; simp
      · rw [if_neg hp]
        cases i with
        | zero => left; simp
        | succ j =>
            rcases ih j with h | ⟨a, h1, h2⟩
            · left
              simpa using h
            · right
              exact ⟨a, by simpa using h1, by simpa using h2⟩

lemma length_updateFirst (p : LoanApplication → Bool) (f : LoanApplication → LoanApplication)
    (ls : List LoanApplication) :
    (updateFirst p f ls).length = ls.length := by
  induction ls with
  | nil => rfl
  | cons l ls ih =>
      simp only [updateFirst]
      by_cases hp : p l = true
      · rw [if_pos hp]
        simp
      · rw [if_neg hp]
        simp [ih]

lemma any_id_of_find? {ls : List LoanApplication} {id : String} {l0 : LoanApplication}
    (h : ls.find? (fun l => l.id == id) = some l0) :
    ls.any (fun l => l.id == id) = true :=
  List.any_eq_true.mpr ⟨l0, List.mem_of_find?_eq_some h,
    @List.find?_some _ (fun x => x.id == id) l0 ls h⟩

lemma id_of_find? {ls : List LoanApplication} {id : String} {l0 : LoanApplication}
    (h : ls.find? (fun l => l.id == id) = some l0) : l0.id = id := by
  have := @List.find?_some _ (fun x => x.id == id) l0 ls h
  simpa using this

/-- Claim C9: when the fixed storage key is absent (empty storage),
`getLoans` returns an empty sequence; being a total function of the store
it raises no error. -/
theorem c9_load_empty_store : getLoans emptyStore = [] := rfl

/-- Claim C10: `saveLoans` applies no validation: every sequence of records,
including sequences violating the data-model constraints, is persisted
verbatim under the fixed storage key, and a subsequent `getLoans` returns
exactly that sequence. -/
theorem c10_save_no_validation (xs : List LoanApplication) (store : Store) :
    saveLoans xs store = some xs ∧ getLoans (saveLoans xs store) = xs :=
  ⟨rfl, rfl⟩

/-- Claim C4: `calculateMonthlyPayment` is the pure function
`amount * (1 + interestRate) / termMonths` with no rounding; on the three
documented examples it gives 11000/12 (within 0.01 of 916.67), exactly
1000, and exactly 1800. -/
theorem c4_monthly_payment :
    (∀ loan : LoanApplication,
        calculateMonthlyPayment loan =
          loan.amount * (1 + loan.interestRate) / loan.termMonths) ∧
      |calculateMonthlyPayment
          ⟨"1", "Test", 10000, 12, 1/10, LoanStatus.pending, "c"⟩ -
        91667/100| < 1/100 ∧
      calculateMonthlyPayment
          ⟨"1", "Test", 12000, 12, 0, LoanStatus.pending, "c"⟩ = 1000 ∧
      calculateMonthlyPayment
          ⟨"1", "Test", 100000, 60, 2/25, LoanStatus.pending, "c"⟩ = 1800 := by
  refine ⟨fun loan => rfl, ?_, ?_, ?_⟩
  · rw [abs_lt]
    norm_num [calculateMonthlyPayment]
  · norm_num [calculateMonthlyPayment]
  · norm_num [calculateMonthlyPayment]

/-- Claim C2: every invalid input makes `createLoanApplication` fail with a
`ValidationError` carrying the exact message of the first failing check in
the fixed order (name, amount, termMonths, interestRate), and leaves the
persisted collection untouched. -/
theorem c2_create_invalid (input : LoanInput) (now : String) (store : Store)
    (h : strTrim input.applicantName = "" ∨ input.amount ≤ 0 ∨
      input.termMonths ≤ 0 ∨ input.interestRate < 0) :
    createLoanApplication input now store =
      (Except.error (LoanError.validation
        (if strTrim input.applicantName = "" then "Applicant name is required"
         else if input.amount ≤ 0 then "Amount must be greater than 0"
         else if input.termMonths ≤ 0 then "Term months must be greater than 0"
         else "Interest rate cannot be negative")), store) := by
  unfold createLoanApplication validateInput
  split_ifs with h1 h2 h3 h4
  · rfl
  · rfl
  · rfl
  · rfl
  · rcases h with h | h | h | h
    · exact absurd h h1
    · exact absurd h h2
    · exact absurd h h3
    · exact absurd h h4

/-- Witness for C2 at a concrete invalid input: empty applicant name. -/
theorem c2_create_invalid_witness :
    (strTrim "" = "" ∨ (10000 : ℚ) ≤ 0 ∨ (12 : ℚ) ≤ 0 ∨ (0 : ℚ) < 0) ∧
      createLoanApplication ⟨"", 10000, 12, 0⟩ "t" emptyStore =
        (Except.error (LoanError.validation "Applicant name is required"),
          emptyStore) :=
  ⟨Or.inl rfl, c2_create_invalid ⟨"", 10000, 12, 0⟩ "t" emptyStore (Or.inl rfl)⟩

/-- Claim C3: for every valid input, `createLoanApplication` returns a
pending record with a non-empty freshly generated id distinct from every id
already in the collection, the trimmed applicant name and the given numeric
fields; the record is appended at the end of the loaded collection and the
updated collection is persisted. -/
theorem c3_create_valid (input : LoanInput) (now : String) (store : Store)
    (h1 : strTrim input.applicantName ≠ "") (h2 : 0 < input.amount)
    (h3 : 0 < input.termMonths) (h4 : 0 ≤ input.interestRate) :
    ∃ loan, createLoanApplication input now store =
        (Except.ok loan, some (getLoans store ++ [loan])) ∧
      loan.status = LoanStatus.pending ∧ loan.id ≠ "" ∧
      (∀ l ∈ getLoans store, l.id ≠ loan.id) ∧
      loan.applicantName = strTrim input.applicantName ∧
      loan.amount = input.amount ∧ loan.termMonths = input.termMonths ∧
      loan.interestRate = input.interestRate ∧ loan.createdAt = now := by
  have hv : validateInput input = none :=
    (validateInput_eq_none_iff input).mpr ⟨h1, h2, h3, h4⟩
  refine ⟨⟨freshId (getLoans store), strTrim input.applicantName, input.amount,
    input.termMonths, input.interestRate, LoanStatus.pending, now⟩,
    ?_, rfl, freshId_ne_empty _, ?_, rfl, rfl, rfl, rfl, rfl⟩
  · unfold createLoanApplication
    rw [hv]
    rfl
  · intro l hl
    exact freshId_not_mem hl

/-- Witness for C3 at a concrete valid input. -/
theorem c3_create_valid_witness :
    (strTrim "Alice Smith" ≠ "" ∧ (0 : ℚ) < 25000 ∧ (0 : ℚ) < 12 ∧
        (0 : ℚ) ≤ 0) ∧
      ∃ loan, createLoanApplication ⟨"Alice Smith", 25000, 12, 0⟩ "t" emptyStore =
          (Except.ok loan, some (getLoans emptyStore ++ [loan])) ∧
        loan.status = LoanStatus.pending ∧ loan.id ≠ "" ∧
        (∀ l ∈ getLoans emptyStore, l.id ≠ loan.id) ∧
        loan.applicantName = strTrim "Alice Smith" ∧
        loan.amount = 25000 ∧ loan.termMonths = 12 ∧
        loan.interestRate = 0 ∧ loan.createdAt = "t" :=
  ⟨⟨by decide, by decide, by decide, by decide⟩,
    c3_create_valid ⟨"Alice Smith", 25000, 12, 0⟩ "t" emptyStore
      (by decide) (by decide) (by decide) (by decide)⟩

/-- Claim C1: the record located by `autoDecideLoan` has its status decided
by `amount` and `termMonths` alone: at most 100000 and at most 60 (both
bounds inclusive) approves, anything else rejects; the mutated collection
is persisted. -/
theorem c1_auto_decide (id : String) (store : Store) (l0 : LoanApplication)
    (h : (getLoans store).find? (fun l => l.id == id) = some l0) :
    ∃ i, (getLoans store)[i]? = some l0 ∧
      autoDecideLoan id store =
        (Except.ok (), some ((getLoans store).set i
          { l0 with status :=
              if l0.amount ≤ 100000 ∧ l0.termMonths ≤ 60 then
                LoanStatus.approved
              else LoanStatus.rejected })) := by
  obtain ⟨i, h1, h2⟩ := updateFirst_eq_set (fun l => l.id == id)
    (fun l => { l with status := autoDecision l }) (getLoans store) l0 h
  refine ⟨i, h1, ?_⟩
  unfold autoDecideLoan
  rw [any_id_of_find? h]
  rw [if_pos rfl]
  rw [h2]
  rfl

/-- Witness for C1 at the inclusive boundary `amount = 100000`,
`termMonths = 60`: the record is approved. -/
theorem c1_auto_decide_witness :
    (getLoans (some [(⟨"a", "Auto User", 100000, 60, 0, LoanStatus.pending,
          "2024"⟩ : LoanApplication)])).find? (fun l => l.id == "a") =
        some ⟨"a", "Auto User", 100000, 60, 0, LoanStatus.pending, "2024"⟩ ∧
      ∃ i, (getLoans (some [(⟨"a", "Auto User", 100000, 60, 0,
            LoanStatus.pending, "2024"⟩ : LoanApplication)]))[i]? =
          some ⟨"a", "Auto User", 100000, 60, 0, LoanStatus.pending, "2024"⟩ ∧
        autoDecideLoan "a" (some [⟨"a", "Auto User", 100000, 60, 0,
            LoanStatus.pending, "2024"⟩]) =
          (Except.ok (), some ((getLoans (some [(⟨"a", "Auto User", 100000, 60,
              0, LoanStatus.pending, "2024"⟩ : LoanApplication)])).set i
            { (⟨"a", "Auto User", 100000, 60, 0, LoanStatus.pending,
                "2024"⟩ : LoanApplication) with
                status := LoanStatus.approved })) :=
  ⟨rfl, c1_auto_decide "a"
    (some [⟨"a", "Auto User", 100000, 60, 0, LoanStatus.pending, "2024"⟩])
    ⟨"a", "Auto User", 100000, 60, 0, LoanStatus.pending, "2024"⟩ rfl⟩

/-- Claim C5: for an id matching no record, both `updateLoanStatus` and
`autoDecideLoan` raise `NotFoundError` with the message
"Loan with id {id} not found", and the persisted collection (the result of
a subsequent load) is unmodified. -/
theorem c5_not_found (id : String) (newStatus : LoanStatus) (store : Store)
    (h : ∀ l ∈ getLoans store, l.id ≠ id) :
    updateLoanStatus id newStatus store =
        (Except.error (LoanError.notFound
          ("Loan with id " ++ id ++ " not found")), store) ∧
      autoDecideLoan id store =
        (Except.error (LoanError.notFound
          ("Loan with id " ++ id ++ " not found")), store) ∧
      getLoans (updateLoanStatus id newStatus store).2 = getLoans store ∧
      getLoans (autoDecideLoan id store).2 = getLoans store := by
  have hany : (getLoans store).any (fun l => l.id == id) = false := by
    rw [List.any_eq_false]
    intro l hl
    simpa using h l hl
  have h1 : updateLoanStatus id newStatus store =
      (Except.error (LoanError.notFound
        ("Loan with id " ++ id ++ " not found")), store) := by
    unfold updateLoanStatus
    rw [hany]
    rfl
  have h2 : autoDecideLoan id store =
      (Except.error (LoanError.notFound
        ("Loan with id " ++ id ++ " not found")), store) := by
    unfold autoDecideLoan
    rw [hany]
    rfl
  exact ⟨h1, h2, by rw [h1], by rw [h2]⟩

/-- Witness for C5 at a concrete missing id on the empty store. -/
theorem c5_not_found_witness :
    (∀ l ∈ getLoans emptyStore, l.id ≠ "non-existent") ∧
      updateLoanStatus "non-existent" LoanStatus.approved emptyStore =
          (Except.error (LoanError.notFound
            ("Loan with id " ++ "non-existent" ++ " not found")), emptyStore) ∧
        autoDecideLoan "non-existent" emptyStore =
          (Except.error (LoanError.notFound
            ("Loan with id " ++ "non-existent" ++ " not found")), emptyStore) ∧
        getLoans (updateLoanStatus "non-existent" LoanStatus.approved
          emptyStore).2 = getLoans emptyStore ∧
        getLoans (autoDecideLoan "non-existent" emptyStore).2 =
          getLoans emptyStore :=
  ⟨fun l hl => absurd hl (List.not_mem_nil l),
    c5_not_found "non-existent" LoanStatus.approved emptyStore
      (fun l hl => absurd hl (List.not_mem_nil l))⟩

/-- Claim C6: on a collection containing the given id, `updateLoanStatus`
with a decision status changes only the status field of the first matching
record: that record keeps every other field, every other position of the
collection is unchanged, the length is preserved, and the result is
persisted. -/
theorem c6_update_frame (id : String) (newStatus : LoanStatus) (store : Store)
    (l0 : LoanApplication)
    (_hs : newStatus = LoanStatus.approved ∨ newStatus = LoanStatus.rejected)
    (h : (getLoans store).find? (fun l => l.id == id) = some l0) :
    ∃ i, (getLoans store)[i]? = some l0 ∧ l0.id = id ∧
      updateLoanStatus id newStatus store =
        (Except.ok (), some ((getLoans store).set i
          { l0 with status := newStatus })) ∧
      (getLoans (updateLoanStatus id newStatus store).2).length =
        (getLoans store).length ∧
      ∀ j, j ≠ i →
        (getLoans (updateLoanStatus id newStatus store).2)[j]? =
          (getLoans store)[j]? := by
  obtain ⟨i, h1, h2⟩ := updateFirst_eq_set (fun l => l.id == id)
    (fun l => { l with status := newStatus }) (getLoans store) l0 h
  have hupd : updateLoanStatus id newStatus store =
      (Except.ok (), some ((getLoans store).set i
        { l0 with status := newStatus })) := by
    unfold updateLoanStatus
    rw [any_id_of_find? h]
    rw [if_pos rfl]
    rw [h2]
    rfl
  refine ⟨i, h1, id_of_find? h, hupd, ?_, ?_⟩
  · rw [hupd]
    simp [getLoans]
  · intro j hj
    rw [hupd]
    show ((getLoans store).set i { l0 with status := newStatus })[j]? =
      (getLoans store)[j]?
    exact List.getElem?_set_ne (Ne.symm hj)

/-- Witness for C6 on a concrete two-record collection. -/
theorem c6_update_frame_witness :
    ((LoanStatus.approved = LoanStatus.approved ∨
        LoanStatus.approved = LoanStatus.rejected) ∧
      (getLoans (some [⟨"u", "Bob", 50000, 24, 0, LoanStatus.pending, "d1"⟩,
          ⟨"v", "Eve", 60000, 30, 0, LoanStatus.pending, "d2"⟩])).find?
        (fun l => l.id == "u") =
        some ⟨"u", "Bob", 50000, 24, 0, LoanStatus.pending, "d1"⟩) ∧
      ∃ i, (getLoans (some [(⟨"u", "Bob", 50000, 24, 0, LoanStatus.pending,
          "d1"⟩ : LoanApplication),
          ⟨"v", "Eve", 60000, 30, 0, LoanStatus.pending, "d2"⟩]))[i]? =
          some ⟨"u", "Bob", 50000, 24, 0, LoanStatus.pending, "d1"⟩ ∧
        (⟨"u", "Bob", 50000, 24, 0, LoanStatus.pending, "d1"⟩ :
          LoanApplication).id = "u" ∧
        updateLoanStatus "u" LoanStatus.approved
          (some [⟨"u", "Bob", 50000, 24, 0, LoanStatus.pending, "d1"⟩,
            ⟨"v", "Eve", 60000, 30, 0, LoanStatus.pending, "d2"⟩]) =
          (Except.ok (), some ((getLoans
            (some [(⟨"u", "Bob", 50000, 24, 0, LoanStatus.pending,
              "d1"⟩ : LoanApplication),
              ⟨"v", "Eve", 60000, 30, 0, LoanStatus.pending, "d2"⟩])).set i
            { (⟨"u", "Bob", 50000, 24, 0, LoanStatus.pending, "d1"⟩ :
                LoanApplication) with status := LoanStatus.approved })) ∧
        (getLoans (updateLoanStatus "u" LoanStatus.approved
          (some [⟨"u", "Bob", 50000, 24, 0, LoanStatus.pending, "d1"⟩,
            ⟨"v", "Eve", 60000, 30, 0, LoanStatus.pending, "d2"⟩])).2).length =
          (getLoans (some [(⟨"u", "Bob", 50000, 24, 0, LoanStatus.pending,
            "d1"⟩ : LoanApplication),
            ⟨"v", "Eve", 60000, 30, 0, LoanStatus.pending, "d2"⟩])).length ∧
        ∀ j, j ≠ i →
          (getLoans (updateLoanStatus "u" LoanStatus.approved
            (some [⟨"u", "Bob", 50000, 24, 0, LoanStatus.pending, "d1"⟩,
              ⟨"v", "Eve", 60000, 30, 0, LoanStatus.pending, "d2"⟩])).2)[j]? =
            (getLoans (some [(⟨"u", "Bob", 50000, 24, 0, LoanStatus.pending,
              "d1"⟩ : LoanApplication),
              ⟨"v", "Eve", 60000, 30, 0, LoanStatus.pending, "d2"⟩]))[j]? :=
  ⟨⟨Or.inl rfl, rfl⟩,
    c6_update_frame "u" LoanStatus.approved
      (some [⟨"u", "Bob", 50000, 24, 0, LoanStatus.pending, "d1"⟩,
        ⟨"v", "Eve", 60000, 30, 0, LoanStatus.pending, "d2"⟩])
      ⟨"u", "Bob", 50000, 24, 0, LoanStatus.pending, "d1"⟩
      (Or.inl rfl) rfl⟩

lemma getLoans_some (xs : List LoanApplication) : getLoans (some xs) = xs := rfl

lemma getLoans_saveLoans (xs : List LoanApplication) (store : Store) :
    getLoans (saveLoans xs store) = xs := rfl

lemma status_mem (s : LoanStatus) :
    s = LoanStatus.pending ∨ s = LoanStatus.approved ∨
      s = LoanStatus.rejected := by
  cases s
  · exact Or.inl rfl
  · exact Or.inr (Or.inl rfl)
  · exact Or.inr (Or.inr rfl)

lemma autoDecision_ne_pending (l : LoanApplication) :
    autoDecision l ≠ LoanStatus.pending := by
  unfold autoDecision
  split_ifs <;> simp

lemma validRecord_status_set (l : LoanApplication) (s : LoanStatus)
    (h : validRecord l) : validRecord { l with status := s } := by
  obtain ⟨h1, h2, h3, h4, _⟩ := h
  exact ⟨h1, h2, h3, h4, status_mem s⟩

/-- The record `createLoanApplication` builds on a valid input. -/
def newLoanOf (input : LoanInput) (now : String) (store : Store) :
    LoanApplication :=
  ⟨freshId (getLoans store), strTrim input.applicantName, input.amount,
    input.termMonths, input.interestRate, LoanStatus.pending, now⟩

lemma applyOp_create_invalid (input : LoanInput) (now : String) (store : Store)
    (msg : String) (hv : validateInput input = some msg) :
    applyOp (Op.create input now) store = store := by
  simp only [applyOp]
  unfold createLoanApplication
  rw [hv]

lemma applyOp_create_valid (input : LoanInput) (now : String) (store : Store)
    (hv : validateInput input = none) :
    applyOp (Op.create input now) store =
      some (getLoans store ++ [newLoanOf input now store]) := by
  simp only [applyOp]
  unfold createLoanApplication
  rw [hv]
  rfl

lemma applyOp_update_found (id : String) (s : LoanStatus) (store : Store)
    (hany : ((getLoans store).any fun l => l.id == id) = true) :
    applyOp (Op.update id s) store =
      some (updateFirst (fun l => l.id == id)
        (fun l => { l with status := s }) (getLoans store)) := by
  simp only [applyOp]
  unfold updateLoanStatus
  rw [hany]
  rfl

lemma applyOp_update_notfound (id : String) (s : LoanStatus) (store : Store)
    (hany : ((getLoans store).any fun l => l.id == id) = false) :
    applyOp (Op.update id s) store = store := by
  simp only [applyOp]
  unfold updateLoanStatus
  rw [hany]
  rfl

lemma applyOp_auto_found (id : String) (store : Store)
    (hany : ((getLoans store).any fun l => l.id == id) = true) :
    applyOp (Op.autoDecide id) store =
      some (updateFirst (fun l => l.id == id)
        (fun l => { l with status := autoDecision l }) (getLoans store)) := by
  simp only [applyOp]
  unfold autoDecideLoan
  rw [hany]
  rfl

lemma applyOp_auto_notfound (id : String) (store : Store)
    (hany : ((getLoans store).any fun l => l.id == id) = false) :
    applyOp (Op.autoDecide id) store = store := by
  simp only [applyOp]
  unfold autoDecideLoan
  rw [hany]
  rfl

lemma decisionOnly_update {id : String} {s : LoanStatus}
    (hop : (Op.update id s).decisionOnly = true) : s ≠ LoanStatus.pending := by
  cases s <;> simp_all [Op.decisionOnly]

lemma lt_length_of_getElem? {xs : List LoanApplication} {i : ℕ}
    {l : LoanApplication} (h : xs[i]? = some l) : i < xs.length := by
  by_contra hc
  rw [List.getElem?_eq_none (le_of_not_lt hc)] at h
  cases h

lemma applyOp_getElem? (op : Op) (store : Store)
    (hop : op.decisionOnly = true) (i : ℕ) (l : LoanApplication)
    (h : (getLoans store)[i]? = some l) :
    ∃ l', (getLoans (applyOp op store))[i]? = some l' ∧ l'.id = l.id ∧
      (l'.status = l.status ∨ l'.status ≠ LoanStatus.pending) := by
  cases op with
  | create input now =>
      cases hv : validateInput input with
      | some msg =>
          rw [applyOp_create_invalid input now store msg hv]
          exact ⟨l, h, rfl, Or.inl rfl⟩
      | none =>
          rw [applyOp_create_valid input now store hv, getLoans_some]
          refine ⟨l, ?_, rfl, Or.inl rfl⟩
          rw [List.getElem?_append_left (lt_length_of_getElem? h)]
          exact h
  | update id s =>
      by_cases hany : ((getLoans store).any fun x => x.id == id) = true
      · rw [applyOp_update_found id s store hany, getLoans_some]
        rcases getElem?_updateFirst (fun x => x.id == id)
            (fun x => { x with status := s }) (getLoans store) i with
          hsame | ⟨a, ha1, ha2⟩
        · rw [hsame]
          exact ⟨l, h, rfl, Or.inl rfl⟩
        · rw [ha1] at h
          cases h
          exact ⟨_, ha2, rfl, Or.inr (decisionOnly_update hop)⟩
      · rw [Bool.not_eq_true] at hany
        rw [applyOp_update_notfound id s store hany]
        exact ⟨l, h, rfl, Or.inl rfl⟩
  | autoDecide id =>
      by_cases hany : ((getLoans store).any fun x => x.id == id) = true
      · rw [applyOp_auto_found id store hany, getLoans_some]
        rcases getElem?_updateFirst (fun x => x.id == id)
            (fun x => { x with status := autoDecision x }) (getLoans store) i
          with hsame | ⟨a, ha1, ha2⟩
        · rw [hsame]
          exact ⟨l, h, rfl, Or.inl rfl⟩
        · rw [ha1] at h
          cases h
          exact ⟨_, ha2, rfl, Or.inr (autoDecision_ne_pending _)⟩
      · rw [Bool.not_eq_true] at hany
        rw [applyOp_auto_notfound id store hany]
        exact ⟨l, h, rfl, Or.inl rfl⟩

lemma applyOps_getElem? (ops : List Op) (store : Store)
    (hops : ∀ op ∈ ops, op.decisionOnly = true) (i : ℕ) (l : LoanApplication)
    (h : (getLoans store)[i]? = some l) :
    ∃ l', (getLoans (applyOps ops store))[i]? = some l' ∧ l'.id = l.id ∧
      (l'.status = l.status ∨ l'.status ≠ LoanStatus.pending) := by
  induction ops generalizing store l with
  | nil => exact ⟨l, h, rfl, Or.inl rfl⟩
  | cons op ops ih =>
      obtain ⟨l1, h1, h2, h3⟩ :=
        applyOp_getElem? op store (hops op (List.mem_cons_self op ops)) i l h
      obtain ⟨l2, g1, g2, g3⟩ :=
        ih (applyOp op store) (fun o ho => hops o (List.mem_cons_of_mem _ ho))
          l1 h1
      refine ⟨l2, g1, g2.trans h2, ?_⟩
      rcases g3 with g3 | g3
      · rcases h3 with h3 | h3
        · exact Or.inl (g3.trans h3)
        · exact Or.inr (g3 ▸ h3)
      · exact Or.inr g3

lemma applyOp_inv (op : Op) (store : Store) (h : Inv (getLoans store)) :
    Inv (getLoans (applyOp op store)) := by
  obtain ⟨hval, hnd⟩ := h
  cases op with
  | create input now =>
      cases hv : validateInput input with
      | some msg =>
          rw [applyOp_create_invalid input now store msg hv]
          exact ⟨hval, hnd⟩
      | none =>
          rw [applyOp_create_valid input now store hv, getLoans_some]
          obtain ⟨hn1, hn2, hn3, hn4⟩ := (validateInput_eq_none_iff input).mp hv
          constructor
          · intro l hl
            rcases List.mem_append.mp hl with hl | hl
            · exact hval l hl
            · have he : l = newLoanOf input now store := by simpa using hl
              rw [he]
              refine ⟨?_, hn2, hn3, hn4, Or.inl rfl⟩
              show strTrim (strTrim input.applicantName) ≠ ""
              rw [strTrim_idem]
              exact hn1
          · rw [List.map_append, List.nodup_append]
            refine ⟨hnd, by simp, ?_⟩
            intro a ha hb
            obtain ⟨l, hl, hid⟩ := List.mem_map.mp ha
            have hb' : a = freshId (getLoans store) := by simpa [newLoanOf] using hb
            exact freshId_not_mem hl (hid.symm ▸ hb')
  | update id s =>
      by_cases hany : ((getLoans store).any fun x => x.id == id) = true
      · rw [applyOp_update_found id s store hany, getLoans_some]
        constructor
        · intro l' hl'
          rcases mem_updateFirst hl' with hmem | ⟨l, hl, he⟩
          · exact hval l' hmem
          · rw [he]
            exact validRecord_status_set l s (hval l hl)
        · rw [map_id_updateFirst (fun x => x.id == id)
            (fun x => { x with status := s }) (fun l => rfl)]
          exact hnd
      · rw [Bool.not_eq_true] at hany
        rw [applyOp_update_notfound id s store hany]
        exact ⟨hval, hnd⟩
  | autoDecide id =>
      by_cases hany : ((getLoans store).any fun x => x.id == id) = true
      · rw [applyOp_auto_found id store hany, getLoans_some]
        constructor
        · intro l' hl'
          rcases mem_updateFirst hl' with hmem | ⟨l, hl, he⟩
          · exact hval l' hmem
          · rw [he]
            exact validRecord_status_set l (autoDecision l) (hval l hl)
        · rw [map_id_updateFirst (fun x => x.id == id)
            (fun x => { x with status := autoDecision x }) (fun l => rfl)]
          exact hnd
      · rw [Bool.not_eq_true] at hany
        rw [applyOp_auto_notfound id store hany]
        exact ⟨hval, hnd⟩

lemma applyOps_inv (ops : List Op) (store : Store) (h : Inv (getLoans store)) :
    Inv (getLoans (applyOps ops store)) := by
  induction ops generalizing store with
  | nil => exact h
  | cons op ops ih => exact ih (applyOp op store) (applyOp_inv op store h)

lemma applyOp_ids_mono (op : Op) (store : Store) :
    (getLoans store).map (fun l => l.id) <+:
      (getLoans (applyOp op store)).map (fun l => l.id) := by
  cases op with
  | create input now =>
      cases hv : validateInput input with
      | some msg =>
          rw [applyOp_create_invalid input now store msg hv]
      | none =>
          rw [applyOp_create_valid input now store hv, getLoans_some,
            List.map_append]
          exact List.prefix_append _ _
  | update id s =>
      by_cases hany : ((getLoans store).any fun x => x.id == id) = true
      · rw [applyOp_update_found id s store hany, getLoans_some,
          map_id_updateFirst (fun x => x.id == id)
            (fun x => { x with status := s }) (fun l => rfl)]
      · rw [Bool.not_eq_true] at hany
        rw [applyOp_update_notfound id s store hany]
  | autoDecide id =>
      by_cases hany : ((getLoans store).any fun x => x.id == id) = true
      · rw [applyOp_auto_found id store hany, getLoans_some,
          map_id_updateFirst (fun x => x.id == id)
            (fun x => { x with status := autoDecision x }) (fun l => rfl)]
      · rw [Bool.not_eq_true] at hany
        rw [applyOp_auto_notfound id store hany]

lemma applyOps_ids_mono (ops : List Op) (store : Store) :
    (getLoans store).map (fun l => l.id) <+:
      (getLoans (applyOps ops store)).map (fun l => l.id) := by
  induction ops generalizing store with
  | nil => exact List.prefix_refl _
  | cons op ops ih =>
      exact (applyOp_ids_mono op store).trans (ih (applyOp op store))

lemma applyOps_append (xs ys : List Op) (store : Store) :
    applyOps (xs ++ ys) store = applyOps ys (applyOps xs store) := by
  induction xs generalizing store with
  | nil => rfl
  | cons op xs ih => exact ih (applyOp op store)

/-- Counterexample to claim C7 as stated: on a collection reachable from the
empty store by core operations, a further `updateLoanStatus` call changes
the status of an already approved record from approved to rejected, so the
decided states are not terminal at the record-service level. -/
theorem c7_decided_not_terminal :
    getLoans (applyOps [Op.create ⟨"Jane", 75000, 36, 0⟩ "t",
        Op.update "x" LoanStatus.approved] emptyStore) =
      [⟨"x", "Jane", 75000, 36, 0, LoanStatus.approved, "t"⟩] ∧
      getLoans (applyOps [Op.create ⟨"Jane", 75000, 36, 0⟩ "t",
          Op.update "x" LoanStatus.approved,
          Op.update "x" LoanStatus.rejected] emptyStore) =
        [⟨"x", "Jane", 75000, 36, 0, LoanStatus.rejected, "t"⟩] ∧
      LoanStatus.rejected ≠ LoanStatus.approved :=
  ⟨rfl, rfl, by decide⟩

/-- Claim C7 (amended): no record ever transitions back to pending: under
every sequence of core operations whose status updates carry a decision
status (approved or rejected, as the spec requires of `updateStatus`), a
record that is approved or rejected keeps its id and never becomes pending
again; decided states are terminal only in the sense that the UI offers no
transition action for them, while a direct `updateLoanStatus` call may
still overwrite a decided status. -/
theorem c7_no_return_to_pending (ops : List Op) (store : Store)
    (hops : ∀ op ∈ ops, op.decisionOnly = true) (i : ℕ)
    (l : LoanApplication) (h : (getLoans store)[i]? = some l)
    (hl : l.status ≠ LoanStatus.pending) :
    ∃ l', (getLoans (applyOps ops store))[i]? = some l' ∧ l'.id = l.id ∧
      l'.status ≠ LoanStatus.pending := by
  obtain ⟨l', g1, g2, g3⟩ := applyOps_getElem? ops store hops i l h
  refine ⟨l', g1, g2, ?_⟩
  rcases g3 with g3 | g3
  · rw [g3]
    exact hl
  · exact g3

/-- Witness for the amended C7 on a concrete one-record store. -/
theorem c7_no_return_to_pending_witness :
    (∀ op ∈ [Op.update "1" LoanStatus.rejected], op.decisionOnly = true) ∧
      (getLoans (some [(⟨"1", "Ann", 100, 12, 0, LoanStatus.approved,
          "t"⟩ : LoanApplication)]))[0]? =
        some ⟨"1", "Ann", 100, 12, 0, LoanStatus.approved, "t"⟩ ∧
      (⟨"1", "Ann", 100, 12, 0, LoanStatus.approved, "t"⟩ :
        LoanApplication).status ≠ LoanStatus.pending ∧
      ∃ l', (getLoans (applyOps [Op.update "1" LoanStatus.rejected]
            (some [⟨"1", "Ann", 100, 12, 0, LoanStatus.approved,
              "t"⟩])))[0]? = some l' ∧
        l'.id = (⟨"1", "Ann", 100, 12, 0, LoanStatus.approved, "t"⟩ :
          LoanApplication).id ∧
        l'.status ≠ LoanStatus.pending :=
  ⟨fun op hop => by
      rw [List.mem_singleton] at hop
      rw [hop]
      rfl,
    by rfl,
    by decide,
    c7_no_return_to_pending [Op.update "1" LoanStatus.rejected]
      (some [⟨"1", "Ann", 100, 12, 0, LoanStatus.approved, "t"⟩])
      (fun op hop => by
        rw [List.mem_singleton] at hop
        rw [hop]
        rfl)
      0 ⟨"1", "Ann", 100, 12, 0, LoanStatus.approved, "t"⟩
      (by rfl) (by decide)⟩

/-- Claim C8: starting from the empty store, every sequence of core
operations preserves the collection invariant: all persisted records
satisfy the validation constraints, no two records share an id, and the
collection stays in creation order (the id sequence after any prefix of
the operations is a prefix of the final id sequence). -/
theorem c8_collection_invariant (ops : List Op) :
    Inv (getLoans (applyOps ops emptyStore)) ∧
      ∀ ps rest, ops = ps ++ rest →
        (getLoans (applyOps ps emptyStore)).map (fun l => l.id) <+:
          (getLoans (applyOps ops emptyStore)).map (fun l => l.id) := by
  constructor
  · apply applyOps_inv
    exact ⟨fun l hl => absurd hl (List.not_mem_nil l), List.nodup_nil⟩
  · intro ps rest hsplit
    rw [hsplit, applyOps_append]
    exact applyOps_ids_mono rest (applyOps ps emptyStore)

/-- Witness for C8 on a concrete singleton operation sequence. -/
theorem c8_collection_invariant_witness :
    ([Op.create ⟨"Ann", 100, 12, 0⟩ "t"] =
        ([] : List Op) ++ [Op.create ⟨"Ann", 100, 12, 0⟩ "t"]) ∧
      Inv (getLoans (applyOps [Op.create ⟨"Ann", 100, 12, 0⟩ "t"]
        emptyStore)) ∧
      (getLoans (applyOps ([] : List Op) emptyStore)).map (fun l => l.id) <+:
        (getLoans (applyOps [Op.create ⟨"Ann", 100, 12, 0⟩ "t"]
          emptyStore)).map (fun l => l.id) :=
  ⟨rfl, (c8_collection_invariant [Op.create ⟨"Ann", 100, 12, 0⟩ "t"]).1,
    (c8_collection_invariant [Op.create ⟨"Ann", 100, 12, 0⟩ "t"]).2
      [] [Op.create ⟨"Ann", 100, 12, 0⟩ "t"] rfl⟩

end TredgateLoan
